import Mathlib

/-!
# Connection table and relay loop of the TLS-intercepting proxy (`src/main.c`)

A shallow embedding of the connection table (`struct ssl_connection
ssl_connections[MAX_CONNECTIONS]`), of the three table helpers
(`update_FDSET_with_all_connected_sockets`,
`find_empty_position_in_ssl_connection_list`, `clean_data_in_SSL_connection`)
and of one iteration of the `while (1)` loop of `main`.

Conventions of the embedding.

* A descriptor is an `Int`; an `SSL *` is an `Option Nat` (`none` is `NULL`).
* An `fd_set` is the list of descriptors that were `FD_SET` into it; only
  membership is observed (`FD_ISSET`).
* The table is a function on `Fin MAX_CONNECTIONS`, so `ssl_connections[i]`
  with `0 <= i < MAX_CONNECTIONS` is `t i`.
* `DOMAIN_MAX_SIZE` and `PORT_MAX_SIZE` come from a header that is not part of
  `main.c`; they are parameters.
* The calls that leave `main.c` (`select`, `read_data_from_ssl`,
  `write_data_in_ssl`, the two handshake routines) are recorded as `Action`s;
  what they return is supplied by a `TickEnv`. A read is identified by the
  slot and the leg whose session it is given; each is read at most once in an
  iteration.
* Descriptors are taken to lie in the range an `fd_set` can hold; the `printf`
  calls are left out.
-/

set_option maxRecDepth 100000

namespace SNIProxy

/-! ## Data model -/

/-- The constant `#define MAX_CONNECTIONS 20`. -/
abbrev MAX_CONNECTIONS : Nat := 20

/-- One leg of a proxied connection: `.fd` and `.connection` of the fields
`user` and `host` of `struct ssl_connection`. -/
structure endpoint where
  fd : Int
  connection : Option Nat
deriving DecidableEq, Repr

/-- The fields of `struct ssl_connection` that `main.c` touches. `hostname` and
`port` are `char` arrays, modelled as lists of byte values. -/
structure ssl_connection where
  user : endpoint
  host : endpoint
  hostname : List Nat
  port : List Nat
deriving DecidableEq, Repr

/-- The array `struct ssl_connection ssl_connections[MAX_CONNECTIONS]`. -/
abbrev Table := Fin MAX_CONNECTIONS → ssl_connection

/-- The values `0, 1, ..., MAX_CONNECTIONS - 1` taken by the loop variable of
`for (int i = 0; i < MAX_CONNECTIONS; i++)`, in order. -/
def indices : List (Fin MAX_CONNECTIONS) := List.finRange MAX_CONNECTIONS

/-- The assignment `ssl_connections[i] = s`. -/
def Table.set (t : Table) (i : Fin MAX_CONNECTIONS) (s : ssl_connection) : Table :=
  fun j => if j = i then s else t j

/-- The call `memset(buf, c, n)`: the first `n` bytes become `c`, the rest of
the buffer is kept. -/
def memset (buf : List Nat) (c : Nat) (n : Nat) : List Nat :=
  List.replicate n c ++ buf.drop n

/-! ## `clean_data_in_SSL_connection` -/

/-- The function `clean_data_in_SSL_connection` (main.c, lines 111-120). -/
def clean_data_in_SSL_connection (DOMAIN_MAX_SIZE PORT_MAX_SIZE : Nat)
    (slot : ssl_connection) : ssl_connection :=
  let s := { slot with user := { slot.user with fd := 0 } }
  let s := { s with user := { s.user with connection := none } }
  let s := { s with host := { s.host with fd := 0 } }
  let s := { s with host := { s.host with connection := none } }
  let s := { s with hostname := memset s.hostname 0 DOMAIN_MAX_SIZE }
  { s with port := memset s.port 0 PORT_MAX_SIZE }

/-- The start-up loop of `main` (lines 139-142) run over the index list `l`:
every visited slot is passed to `clean_data_in_SSL_connection`. -/
def startup_loop (DOMAIN_MAX_SIZE PORT_MAX_SIZE : Nat) :
    List (Fin MAX_CONNECTIONS) → Table → Table
  | [], t => t
  | i :: rest, t =>
    startup_loop DOMAIN_MAX_SIZE PORT_MAX_SIZE rest
      (t.set i (clean_data_in_SSL_connection DOMAIN_MAX_SIZE PORT_MAX_SIZE (t i)))

/-- The table after the start-up loop of `main`; `stack` is whatever the
uninitialised array held. -/
def initial_table (DOMAIN_MAX_SIZE PORT_MAX_SIZE : Nat) (stack : Table) : Table :=
  startup_loop DOMAIN_MAX_SIZE PORT_MAX_SIZE indices stack

/-- The slot with both descriptors `0`, both sessions `NULL` and both buffers
zero-filled. -/
def empty_slot (DOMAIN_MAX_SIZE PORT_MAX_SIZE : Nat) : ssl_connection :=
  { user := { fd := 0, connection := none }
    host := { fd := 0, connection := none }
    hostname := List.replicate DOMAIN_MAX_SIZE 0
    port := List.replicate PORT_MAX_SIZE 0 }

/-- The buffers of a slot have the sizes the struct declares for them. -/
def sized (DOMAIN_MAX_SIZE PORT_MAX_SIZE : Nat) (s : ssl_connection) : Prop :=
  s.hostname.length = DOMAIN_MAX_SIZE ∧ s.port.length = PORT_MAX_SIZE

/-! ## `find_empty_position_in_ssl_connection_list` -/

/-- The loop of `find_empty_position_in_ssl_connection_list` over the index
list `l`: the first `i` with `ssl_connections[i].user.fd == 0` is returned,
`-1` when the loop runs out. -/
def find_empty_loop (ssl_connections : Table) : List (Fin MAX_CONNECTIONS) → Int
  | [] => -1
  | i :: rest =>
    if (ssl_connections i).user.fd = 0 then (i.val : Int)
    else find_empty_loop ssl_connections rest

/-- The function `find_empty_position_in_ssl_connection_list` (main.c, lines
98-109). It only reads the table. -/
def find_empty_position_in_ssl_connection_list (ssl_connections : Table) : Int :=
  find_empty_loop ssl_connections indices

/-! ## `update_FDSET_with_all_connected_sockets` -/

/-- A descriptor set of `select`, as the list of the descriptors added to it. -/
abbrev fd_set := List Int

/-- The call `FD_ZERO(&s)`. -/
def FD_ZERO : fd_set := []

/-- The call `FD_SET(fd, &s)`. -/
def FD_SET (fd : Int) (s : fd_set) : fd_set := fd :: s

/-- The test `FD_ISSET(fd, &s)`. -/
def FD_ISSET (fd : Int) (s : fd_set) : Bool := decide (fd ∈ s)

/-- The four objects `update_FDSET_with_all_connected_sockets` writes through
its pointer arguments. -/
structure fd_state where
  user_fds : fd_set
  user_max_fd : Int
  host_fds : fd_set
  host_max_fd : Int
deriving DecidableEq, Repr

/-- The body of the loop of `update_FDSET_with_all_connected_sockets` for
index `i` (main.c, lines 79-94). -/
def update_step (ssl_connections : Table) (st : fd_state) (i : Fin MAX_CONNECTIONS) :
    fd_state :=
  let client_fd := (ssl_connections i).user.fd
  let server_fd := (ssl_connections i).host.fd
  let st := if client_fd > 0 then { st with user_fds := FD_SET client_fd st.user_fds } else st
  let st := if server_fd > 0 then { st with host_fds := FD_SET server_fd st.host_fds } else st
  let st := if client_fd > st.user_max_fd then { st with user_max_fd := client_fd } else st
  if server_fd > st.host_max_fd then { st with host_max_fd := server_fd } else st

/-- The loop of `update_FDSET_with_all_connected_sockets` over the index list. -/
def update_loop (ssl_connections : Table) : List (Fin MAX_CONNECTIONS) → fd_state → fd_state
  | [], st => st
  | i :: rest, st => update_loop ssl_connections rest (update_step ssl_connections st i)

/-- The function `update_FDSET_with_all_connected_sockets` (main.c, lines
75-96); the arguments after the table are the values behind the four pointers
on entry, the result the values behind them on return. -/
def update_FDSET_with_all_connected_sockets (ssl_connections : Table)
    (user_fds : fd_set) (user_max_fd : Int) (host_fds : fd_set) (host_max_fd : Int) :
    fd_state :=
  update_loop ssl_connections indices
    { user_fds := user_fds, user_max_fd := user_max_fd,
      host_fds := host_fds, host_max_fd := host_max_fd }

/-- The sets and maxima `main` holds when it reaches the first `select`
(main.c, lines 145-152). -/
def main_fdsets (server_fd : Int) (ssl_connections : Table) : fd_state :=
  let user_fds := FD_ZERO
  let host_fds := FD_ZERO
  let user_fds := FD_SET server_fd user_fds
  let user_max_fd := server_fd
  let host_max_fd := 0
  update_FDSET_with_all_connected_sockets ssl_connections user_fds user_max_fd
    host_fds host_max_fd

/-! ## External calls -/

/-- Which leg of a slot a call is given: `ssl_connections[i].user.connection`
or `ssl_connections[i].host.connection`. -/
inductive Leg where
  | user
  | host
deriving DecidableEq, Repr

/-- The `char *` returned by `read_data_from_ssl` and handed to
`write_data_in_ssl`, as the bytes it points to. -/
abbrev Payload := List Nat

/-- The calls of one loop iteration that leave `main.c`, with the arguments
`main` computes for them. The `printf` calls are not recorded. -/
inductive Action where
  /-- The call `create_TLS_connection_with_user(ctx, &ssl_connections[index], server_fd)`. -/
  | handshake_user (index : Int)
  /-- The call `create_TLS_connection_with_host_with_changed_SNI(ctx, &ssl_connections[index])`. -/
  | handshake_host (index : Int)
  /-- The call `read_data_from_ssl(ssl_connections[i].<leg>.connection, &end_connection)`. -/
  | read (leg : Leg) (i : Fin MAX_CONNECTIONS)
  /-- The call `write_data_in_ssl(ssl_connections[i].<leg>.connection, body)`. -/
  | write (leg : Leg) (i : Fin MAX_CONNECTIONS) (body : Payload)
deriving DecidableEq, Repr

/-- What a successful client-facing handshake stores in the slot. -/
structure user_handshake where
  fd : Int
  connection : Nat
  hostname : List Nat
  port : List Nat
deriving DecidableEq, Repr

/-- What a successful host-facing handshake stores in the slot. -/
structure host_handshake where
  fd : Int
  connection : Nat
deriving DecidableEq, Repr

/-- Modelled from the spec: the operation `release(index)` of the connection
table (section 4.3), which the handshake routines use to abort a connection;
their bodies are not part of `main.c`. It clears both descriptors, releases
both sessions and zeroes every byte of hostname and port. -/
def release (s : ssl_connection) : ssl_connection :=
  { user := { fd := 0, connection := none }
    host := { fd := 0, connection := none }
    hostname := s.hostname.map (fun _ => 0)
    port := s.port.map (fun _ => 0) }

/-- Modelled from the spec: `create_TLS_connection_with_user` is declared in
`tls/tls-server.h` and its body is not part of `main.c`. Following the spec
(`server_handshake(descriptor, credentials_provider) -> session | error`;
sections 3 and 4.2: a transition failure aborts the whole connection and
returns the slot to empty), a successful handshake populates the client leg,
the hostname and the port of the slot, and a failed one (`none`) returns the
slot to empty. -/
def create_TLS_connection_with_user (outcome : Option user_handshake)
    (s : ssl_connection) : ssl_connection :=
  match outcome with
  | none => release s
  | some h =>
    { s with user := { fd := h.fd, connection := some h.connection },
             hostname := h.hostname, port := h.port }

/-- Modelled from the spec: `create_TLS_connection_with_host_with_changed_SNI`
is declared in `tls/tls-client.h` and its body is not part of `main.c`.
Following the spec (`client_handshake(descriptor, sni_hostname) -> session |
error`; section 4.2: `CONNECTING_HOST` is entered from `CLIENT_ESTABLISHED`
and uses the hostname captured there; a transition failure aborts the whole
connection and returns the slot to empty), a successful handshake on a slot
whose client session is established populates the host leg; a failed one
(`none`), or one on a slot with no client session, returns the slot to
empty. -/
def create_TLS_connection_with_host_with_changed_SNI (outcome : Option host_handshake)
    (s : ssl_connection) : ssl_connection :=
  match outcome with
  | none => release s
  | some h =>
    if s.user.connection.isSome then
      { s with host := { fd := h.fd, connection := some h.connection } }
    else release s

/-- What the outside world answers during one iteration of the `while (1)`
loop. `select_user nfds s` and `select_host nfds s` are the ready sets the two
`select` calls leave in place of `s` (`none` when `select` returns a negative
value); `read leg i` is the body and the `end_connection` flag returned by the
read on that leg of slot `i`. -/
structure TickEnv where
  select_user : Int → fd_set → Option fd_set
  select_host : Int → fd_set → Option fd_set
  handshake_user : Option user_handshake
  handshake_host : Option host_handshake
  read : Leg → Fin MAX_CONNECTIONS → Payload × Bool

/-! ## One iteration of the main loop -/

/-- How one iteration of the loop ends: the loop goes on with table `t`, the
process has called `exit`, or the iteration has accessed
`ssl_connections[index]` with `index` outside `0 .. MAX_CONNECTIONS - 1`,
which C leaves undefined. -/
inductive Outcome where
  | next (t : Table)
  | exited
  | undefined
deriving DecidableEq

/-- The element `ssl_connections[index]` of the array, when there is one. -/
def slot_index (index : Int) : Option (Fin MAX_CONNECTIONS) :=
  if h : 0 ≤ index ∧ index.toNat < MAX_CONNECTIONS then some ⟨index.toNat, h.2⟩ else none

/-- The branch `if (FD_ISSET(server_fd, &user_fds)) { ... continue; }` of
`main` (lines 160-170). -/
def accept_step (env : TickEnv) (ssl_connections : Table) : List Action × Outcome :=
  let empty_position := find_empty_position_in_ssl_connection_list ssl_connections
  let actions := [Action.handshake_user empty_position, Action.handshake_host empty_position]
  match slot_index empty_position with
  | none => (actions, Outcome.undefined)
  | some i =>
    let t := ssl_connections.set i
      (create_TLS_connection_with_user env.handshake_user (ssl_connections i))
    let t := t.set i
      (create_TLS_connection_with_host_with_changed_SNI env.handshake_host (t i))
    (actions, Outcome.next t)

/-- The first read loop of `main` (lines 174-186) over the index list: for a
slot whose `user.fd` is in the ready set, one read on the client leg and one
write of what was read on the host leg. -/
def client_phase_loop (env : TickEnv) (ssl_connections : Table) (user_fds : fd_set) :
    List (Fin MAX_CONNECTIONS) → List Action
  | [] => []
  | i :: rest =>
    let current_user_fd := (ssl_connections i).user.fd
    (if FD_ISSET current_user_fd user_fds then
      let request_body := (env.read Leg.user i).1
      [Action.read Leg.user i, Action.write Leg.host i request_body]
    else []) ++ client_phase_loop env ssl_connections user_fds rest

/-- The second read loop of `main` (lines 195-211) over the index list: for a
slot whose `host.fd` is in the ready set, one read on the host leg and one
write of what was read on the client leg. When `end_connection` is set the
loop only prints a message. -/
def host_phase_loop (env : TickEnv) (ssl_connections : Table) (host_fds : fd_set) :
    List (Fin MAX_CONNECTIONS) → List Action
  | [] => []
  | i :: rest =>
    let current_host_fd := (ssl_connections i).host.fd
    (if FD_ISSET current_host_fd host_fds then
      let response_body := (env.read Leg.host i).1
      [Action.read Leg.host i, Action.write Leg.user i response_body]
    else []) ++ host_phase_loop env ssl_connections host_fds rest

/-- One iteration of the `while (1)` loop of `main` (lines 144-214): the calls
it makes, in order, and how it ends. -/
def tick (server_fd : Int) (env : TickEnv) (ssl_connections : Table) :
    List Action × Outcome :=
  let st := main_fdsets server_fd ssl_connections
  match env.select_user (st.user_max_fd + 1) st.user_fds with
  | none => ([], Outcome.exited)
  | some user_fds =>
    if FD_ISSET server_fd user_fds then accept_step env ssl_connections
    else
      let sent := client_phase_loop env ssl_connections user_fds indices
      match env.select_host (st.host_max_fd + 1) st.host_fds with
      | none => (sent, Outcome.exited)
      | some host_fds =>
        (sent ++ host_phase_loop env ssl_connections host_fds indices,
          Outcome.next ssl_connections)

/-- The loop of `main` run for as many iterations as `envs` has entries,
stopping early when an iteration does not hand a table on. -/
def run (server_fd : Int) : List TickEnv → Table → Outcome
  | [], t => Outcome.next t
  | env :: rest, t =>
    match (tick server_fd env t).2 with
    | Outcome.next t1 => run server_fd rest t1
    | Outcome.exited => Outcome.exited
    | Outcome.undefined => Outcome.undefined

/-- The slot `i` of the table an outcome hands on, when it hands one on. -/
def Outcome.slot (o : Outcome) (i : Fin MAX_CONNECTIONS) : Option ssl_connection :=
  match o with
  | Outcome.next t => some (t i)
  | Outcome.exited => none
  | Outcome.undefined => none

/-! ## Kinds of calls -/

/-- A call of a client-to-host forward: a read on a client leg or a write on a
host leg. -/
def Action.client_to_host : Action → Bool
  | Action.read Leg.user _ => true
  | Action.write Leg.host _ _ => true
  | _ => false

/-- A call of a host-to-client forward: a read on a host leg or a write on a
client leg. -/
def Action.host_to_client : Action → Bool
  | Action.read Leg.host _ => true
  | Action.write Leg.user _ _ => true
  | _ => false

/-- A handshake call of the accept step. -/
def Action.handshake : Action → Bool
  | Action.handshake_user _ => true
  | Action.handshake_host _ => true
  | _ => false

/-- The `select` calls of an environment leave in a set only descriptors that
were in it. -/
def select_subset (env : TickEnv) : Prop :=
  (∀ n s r, env.select_user n s = some r → ∀ x ∈ r, x ∈ s) ∧
  (∀ n s r, env.select_host n s = some r → ∀ x ∈ r, x ∈ s)

/-! ## Descriptions used in the proofs -/

/-- The shape shared by the two read loops of `main`: for every index of the
list with `ready i`, a read on leg `src` of slot `i` followed by a write of
`body i` on leg `dst` of slot `i`. -/
def relay_actions (ready : Fin MAX_CONNECTIONS → Bool) (src dst : Leg)
    (body : Fin MAX_CONNECTIONS → Payload) : List (Fin MAX_CONNECTIONS) → List Action
  | [] => []
  | i :: rest =>
    (if ready i then [Action.read src i, Action.write dst i (body i)] else []) ++
      relay_actions ready src dst body rest

/-- The host-to-client calls of an iteration whose first `select` succeeded
without reporting the listener. -/
def host_part (server_fd : Int) (env : TickEnv) (t : Table) : List Action :=
  match env.select_host ((main_fdsets server_fd t).host_max_fd + 1)
      (main_fdsets server_fd t).host_fds with
  | none => []
  | some hf =>
    relay_actions (fun i => FD_ISSET (t i).host.fd hf) Leg.host Leg.user
      (fun i => (env.read Leg.host i).1) indices

/-- A successful client-facing handshake stores a nonzero descriptor. -/
def populates_user : Option user_handshake → Bool
  | some h => h.fd != 0
  | none => true

/-- A successful host-facing handshake stores a nonzero descriptor. -/
def populates_host : Option host_handshake → Bool
  | some h => h.fd != 0
  | none => true

/-- Each handshake of the environment either succeeds and populates its leg
with a nonzero descriptor and a session, or fails. -/
def handshakes_valid (env : TickEnv) : Prop :=
  populates_user env.handshake_user = true ∧ populates_host env.handshake_host = true

instance (env : TickEnv) : Decidable (handshakes_valid env) := by
  unfold handshakes_valid; infer_instance

/-! ## Slot states -/

/-- A slot is fully empty: both descriptors `0`, both sessions absent, every
byte of hostname and port `0`. -/
def fully_empty (s : ssl_connection) : Prop :=
  s.user.fd = 0 ∧ s.host.fd = 0 ∧ s.user.connection = none ∧ s.host.connection = none ∧
    (∀ b ∈ s.hostname, b = 0) ∧ (∀ b ∈ s.port, b = 0)

/-- A slot is fully active: both descriptors nonzero, both sessions present. -/
def fully_active (s : ssl_connection) : Prop :=
  s.user.fd ≠ 0 ∧ s.host.fd ≠ 0 ∧ s.user.connection ≠ none ∧ s.host.connection ≠ none

instance (s : ssl_connection) : Decidable (fully_empty s) := by
  unfold fully_empty; infer_instance

instance (s : ssl_connection) : Decidable (fully_active s) := by
  unfold fully_active; infer_instance

/-! ## Sample inputs -/

/-- An active slot with client descriptor `u` and host descriptor `h`. -/
def sample_active (u h : Int) : ssl_connection :=
  { user := { fd := u, connection := some 1 }
    host := { fd := h, connection := some 2 }
    hostname := [104, 0, 0, 0]
    port := [52, 0] }

/-- A table whose twenty slots are all active, with client descriptors
`4, 6, ..., 42` and host descriptors `5, 7, ..., 43`. -/
def full_table : Table := fun i => sample_active (2 * i.val + 4) (2 * i.val + 5)

/-- A table with slot 0 active (descriptors 4 and 5) and the other slots empty. -/
def one_active_table : Table :=
  fun i => if i.val = 0 then sample_active 4 5 else empty_slot 4 2

/-- An environment in which `select` reports exactly `ready_user` and
`ready_host`, both handshakes succeed and every read returns `body` with the
`end_connection` flag `eos`. -/
def sample_env (ready_user ready_host : fd_set) (body : Payload) (eos : Bool) : TickEnv :=
  { select_user := fun _ s => some (s.filter (fun x => decide (x ∈ ready_user)))
    select_host := fun _ s => some (s.filter (fun x => decide (x ∈ ready_host)))
    handshake_user := some { fd := 7, connection := 11, hostname := [104], port := [52] }
    handshake_host := some { fd := 8, connection := 12 }
    read := fun _ _ => (body, eos) }

/-- An environment in which the first `select` reports every descriptor it
was given, the listener included, and the handshakes end as `u` and `h`. -/
def accept_env (u : Option user_handshake) (h : Option host_handshake) : TickEnv :=
  { select_user := fun _ s => some s
    select_host := fun _ s => some s
    handshake_user := u
    handshake_host := h
    read := fun _ _ => ([], false) }

/-! ## Facts about the index list -/

theorem mem_indices (i : Fin MAX_CONNECTIONS) : i ∈ indices := by
  unfold indices
  exact List.mem_finRange i

theorem nodup_indices : indices.Nodup := by
  unfold indices
  exact List.nodup_finRange _

theorem pairwise_indices : indices.Pairwise (· < ·) := by
  unfold indices
  exact List.pairwise_lt_finRange _

/-! ## `clean_data_in_SSL_connection` and the start-up loop -/

theorem memset_full (buf : List Nat) (c n : Nat) (h : buf.length = n) :
    memset buf c n = List.replicate n c := by
  unfold memset
  rw [List.drop_eq_nil_of_le (le_of_eq h), List.append_nil]

theorem memset_memset (buf : List Nat) (c n : Nat) :
    memset (memset buf c n) c n = memset buf c n := by
  unfold memset
  rw [List.drop_append_of_le_length (by simp)]
  simp

theorem clean_of_sized (D P : Nat) (s : ssl_connection) (hs : sized D P s) :
    clean_data_in_SSL_connection D P s = empty_slot D P := by
  obtain ⟨h1, h2⟩ := hs
  simp only [clean_data_in_SSL_connection, empty_slot]
  rw [memset_full _ _ _ h1, memset_full _ _ _ h2]

theorem clean_clean (D P : Nat) (s : ssl_connection) :
    clean_data_in_SSL_connection D P (clean_data_in_SSL_connection D P s) =
      clean_data_in_SSL_connection D P s := by
  simp only [clean_data_in_SSL_connection]
  rw [memset_memset, memset_memset]

theorem startup_loop_apply (D P : Nat) (l : List (Fin MAX_CONNECTIONS)) :
    ∀ (t : Table) (j : Fin MAX_CONNECTIONS),
      startup_loop D P l t j =
        if j ∈ l then clean_data_in_SSL_connection D P (t j) else t j := by
  induction l with
  | nil => intro t j; simp [startup_loop]
  | cons i rest ih =>
    intro t j
    rw [startup_loop, ih]
    by_cases hji : j = i
    · subst hji
      by_cases hm : j ∈ rest
      · simp [hm, Table.set, clean_clean]
      · simp [hm, Table.set]
    · by_cases hm : j ∈ rest
      · simp [hm, hji, Table.set]
      · simp [hm, hji, Table.set]

theorem initial_table_apply (D P : Nat) (stack : Table) (j : Fin MAX_CONNECTIONS) :
    initial_table D P stack j = clean_data_in_SSL_connection D P (stack j) := by
  unfold initial_table
  rw [startup_loop_apply, if_pos (mem_indices j)]

/-! ## `find_empty_position_in_ssl_connection_list` -/

theorem find_empty_loop_eq_neg_one (t : Table) (l : List (Fin MAX_CONNECTIONS)) :
    find_empty_loop t l = -1 ↔ ∀ i ∈ l, (t i).user.fd ≠ 0 := by
  induction l with
  | nil => simp [find_empty_loop]
  | cons i rest ih =>
    rw [find_empty_loop]
    by_cases h : (t i).user.fd = 0
    · rw [if_pos h]
      constructor
      · intro h1
        have : (0 : Int) ≤ (i.val : Int) := Int.ofNat_nonneg _
        omega
      · intro h1
        exact absurd h (h1 i (List.mem_cons_self _ _))
    · rw [if_neg h, ih]
      constructor
      · intro h1 j hj
        rcases List.mem_cons.mp hj with rfl | hj
        · exact h
        · exact h1 j hj
      · intro h1 j hj
        exact h1 j (List.mem_cons_of_mem _ hj)

theorem find_empty_loop_first (t : Table) (l : List (Fin MAX_CONNECTIONS))
    (hl : l.Pairwise (· < ·)) (hex : ∃ i ∈ l, (t i).user.fd = 0) :
    ∃ k ∈ l, find_empty_loop t l = (k.val : Int) ∧ (t k).user.fd = 0 ∧
      ∀ j ∈ l, j < k → (t j).user.fd ≠ 0 := by
  induction l with
  | nil =>
    obtain ⟨i, hi, _⟩ := hex
    exact absurd hi (List.not_mem_nil _)
  | cons i rest ih =>
    rw [List.pairwise_cons] at hl
    obtain ⟨hlt, hrest⟩ := hl
    by_cases h : (t i).user.fd = 0
    · refine ⟨i, List.mem_cons_self _ _, ?_, h, ?_⟩
      · rw [find_empty_loop, if_pos h]
      · intro j hj hji
        rcases List.mem_cons.mp hj with rfl | hj
        · exact absurd hji (lt_irrefl _)
        · exact absurd hji (not_lt_of_gt (hlt j hj))
    · have hex1 : ∃ i ∈ rest, (t i).user.fd = 0 := by
        obtain ⟨m, hm, hm0⟩ := hex
        rcases List.mem_cons.mp hm with rfl | hm
        · exact absurd hm0 h
        · exact ⟨m, hm, hm0⟩
      obtain ⟨k, hk, hfind, hk0, hmin⟩ := ih hrest hex1
      refine ⟨k, List.mem_cons_of_mem _ hk, ?_, hk0, ?_⟩
      · rw [find_empty_loop, if_neg h, hfind]
      · intro j hj hjk
        rcases List.mem_cons.mp hj with rfl | hj
        · exact h
        · exact hmin j hj hjk

/-! ## `update_FDSET_with_all_connected_sockets` -/

theorem update_step_user_fds (t : Table) (st : fd_state) (i : Fin MAX_CONNECTIONS) :
    (update_step t st i).user_fds =
      if (t i).user.fd > 0 then (t i).user.fd :: st.user_fds else st.user_fds := by
  simp only [update_step, FD_SET]
  split_ifs <;> rfl

theorem update_step_host_fds (t : Table) (st : fd_state) (i : Fin MAX_CONNECTIONS) :
    (update_step t st i).host_fds =
      if (t i).host.fd > 0 then (t i).host.fd :: st.host_fds else st.host_fds := by
  simp only [update_step, FD_SET]
  split_ifs <;> rfl

theorem update_step_user_max (t : Table) (st : fd_state) (i : Fin MAX_CONNECTIONS) :
    (update_step t st i).user_max_fd = max st.user_max_fd (t i).user.fd := by
  simp only [update_step, FD_SET]
  split_ifs <;> simp_all <;> omega

theorem update_step_host_max (t : Table) (st : fd_state) (i : Fin MAX_CONNECTIONS) :
    (update_step t st i).host_max_fd = max st.host_max_fd (t i).host.fd := by
  simp only [update_step, FD_SET]
  split_ifs <;> simp_all <;> omega

theorem update_loop_user_fds (t : Table) (l : List (Fin MAX_CONNECTIONS)) :
    ∀ (st : fd_state) (x : Int),
      x ∈ (update_loop t l st).user_fds ↔
        x ∈ st.user_fds ∨ ∃ i ∈ l, (t i).user.fd = x ∧ 0 < x := by
  induction l with
  | nil => intro st x; simp [update_loop]
  | cons i rest ih =>
    intro st x
    rw [update_loop, ih, update_step_user_fds]
    constructor
    · rintro (h | ⟨j, hj, hx⟩)
      · split_ifs at h with hpos
        · rcases List.mem_cons.mp h with rfl | h
          · exact Or.inr ⟨i, List.mem_cons_self _ _, rfl, hpos⟩
          · exact Or.inl h
        · exact Or.inl h
      · exact Or.inr ⟨j, List.mem_cons_of_mem _ hj, hx⟩
    · rintro (h | ⟨j, hj, hx, hpos⟩)
      · left
        split_ifs
        · exact List.mem_cons_of_mem _ h
        · exact h
      · rcases List.mem_cons.mp hj with rfl | hj
        · left
          rw [if_pos (by rw [hx]; exact hpos), hx]
          exact List.mem_cons_self _ _
        · exact Or.inr ⟨j, hj, hx, hpos⟩

theorem update_loop_host_fds (t : Table) (l : List (Fin MAX_CONNECTIONS)) :
    ∀ (st : fd_state) (x : Int),
      x ∈ (update_loop t l st).host_fds ↔
        x ∈ st.host_fds ∨ ∃ i ∈ l, (t i).host.fd = x ∧ 0 < x := by
  induction l with
  | nil => intro st x; simp [update_loop]
  | cons i rest ih =>
    intro st x
    rw [update_loop, ih, update_step_host_fds]
    constructor
    · rintro (h | ⟨j, hj, hx⟩)
      · split_ifs at h with hpos
        · rcases List.mem_cons.mp h with rfl | h
          · exact Or.inr ⟨i, List.mem_cons_self _ _, rfl, hpos⟩
          · exact Or.inl h
        · exact Or.inl h
      · exact Or.inr ⟨j, List.mem_cons_of_mem _ hj, hx⟩
    · rintro (h | ⟨j, hj, hx, hpos⟩)
      · left
        split_ifs
        · exact List.mem_cons_of_mem _ h
        · exact h
      · rcases List.mem_cons.mp hj with rfl | hj
        · left
          rw [if_pos (by rw [hx]; exact hpos), hx]
          exact List.mem_cons_self _ _
        · exact Or.inr ⟨j, hj, hx, hpos⟩

theorem update_loop_user_max (t : Table) (l : List (Fin MAX_CONNECTIONS)) :
    ∀ st : fd_state,
      st.user_max_fd ≤ (update_loop t l st).user_max_fd ∧
      (∀ i ∈ l, (t i).user.fd ≤ (update_loop t l st).user_max_fd) ∧
      ((update_loop t l st).user_max_fd = st.user_max_fd ∨
        ∃ i ∈ l, (update_loop t l st).user_max_fd = (t i).user.fd) := by
  induction l with
  | nil => intro st; simp [update_loop]
  | cons i rest ih =>
    intro st
    rw [update_loop]
    obtain ⟨h1, h2, h3⟩ := ih (update_step t st i)
    rw [update_step_user_max] at h1 h3
    refine ⟨le_trans (le_max_left _ _) h1, ?_, ?_⟩
    · intro j hj
      rcases List.mem_cons.mp hj with rfl | hj
      · exact le_trans (le_max_right _ _) h1
      · exact h2 j hj
    · rcases h3 with h3 | ⟨j, hj, h3⟩
      · rcases max_choice st.user_max_fd (t i).user.fd with hm | hm
        · left; rw [h3, hm]
        · right; exact ⟨i, List.mem_cons_self _ _, by rw [h3, hm]⟩
      · right; exact ⟨j, List.mem_cons_of_mem _ hj, h3⟩

theorem update_loop_host_max (t : Table) (l : List (Fin MAX_CONNECTIONS)) :
    ∀ st : fd_state,
      st.host_max_fd ≤ (update_loop t l st).host_max_fd ∧
      (∀ i ∈ l, (t i).host.fd ≤ (update_loop t l st).host_max_fd) ∧
      ((update_loop t l st).host_max_fd = st.host_max_fd ∨
        ∃ i ∈ l, (update_loop t l st).host_max_fd = (t i).host.fd) := by
  induction l with
  | nil => intro st; simp [update_loop]
  | cons i rest ih =>
    intro st
    rw [update_loop]
    obtain ⟨h1, h2, h3⟩ := ih (update_step t st i)
    rw [update_step_host_max] at h1 h3
    refine ⟨le_trans (le_max_left _ _) h1, ?_, ?_⟩
    · intro j hj
      rcases List.mem_cons.mp hj with rfl | hj
      · exact le_trans (le_max_right _ _) h1
      · exact h2 j hj
    · rcases h3 with h3 | ⟨j, hj, h3⟩
      · rcases max_choice st.host_max_fd (t i).host.fd with hm | hm
        · left; rw [h3, hm]
        · right; exact ⟨i, List.mem_cons_self _ _, by rw [h3, hm]⟩
      · right; exact ⟨j, List.mem_cons_of_mem _ hj, h3⟩

theorem update_FDSET_user_fds (t : Table) (uf : fd_set) (um : Int) (hf : fd_set) (hm : Int)
    (x : Int) :
    x ∈ (update_FDSET_with_all_connected_sockets t uf um hf hm).user_fds ↔
      x ∈ uf ∨ ∃ i, (t i).user.fd = x ∧ 0 < x := by
  unfold update_FDSET_with_all_connected_sockets
  rw [update_loop_user_fds]
  constructor
  · rintro (h | ⟨i, _, hi⟩)
    · exact Or.inl h
    · exact Or.inr ⟨i, hi⟩
  · rintro (h | ⟨i, hi⟩)
    · exact Or.inl h
    · exact Or.inr ⟨i, mem_indices i, hi⟩

theorem update_FDSET_host_fds (t : Table) (uf : fd_set) (um : Int) (hf : fd_set) (hm : Int)
    (x : Int) :
    x ∈ (update_FDSET_with_all_connected_sockets t uf um hf hm).host_fds ↔
      x ∈ hf ∨ ∃ i, (t i).host.fd = x ∧ 0 < x := by
  unfold update_FDSET_with_all_connected_sockets
  rw [update_loop_host_fds]
  constructor
  · rintro (h | ⟨i, _, hi⟩)
    · exact Or.inl h
    · exact Or.inr ⟨i, hi⟩
  · rintro (h | ⟨i, hi⟩)
    · exact Or.inl h
    · exact Or.inr ⟨i, mem_indices i, hi⟩

theorem update_FDSET_user_max (t : Table) (uf : fd_set) (um : Int) (hf : fd_set) (hm : Int) :
    um ≤ (update_FDSET_with_all_connected_sockets t uf um hf hm).user_max_fd ∧
    (∀ i, (t i).user.fd ≤ (update_FDSET_with_all_connected_sockets t uf um hf hm).user_max_fd) ∧
    ((update_FDSET_with_all_connected_sockets t uf um hf hm).user_max_fd = um ∨
      ∃ i, (update_FDSET_with_all_connected_sockets t uf um hf hm).user_max_fd =
        (t i).user.fd) := by
  unfold update_FDSET_with_all_connected_sockets
  obtain ⟨h1, h2, h3⟩ := update_loop_user_max t indices
    { user_fds := uf, user_max_fd := um, host_fds := hf, host_max_fd := hm }
  refine ⟨h1, fun i => h2 i (mem_indices i), ?_⟩
  rcases h3 with h3 | ⟨i, _, h3⟩
  · exact Or.inl h3
  · exact Or.inr ⟨i, h3⟩

theorem update_FDSET_host_max (t : Table) (uf : fd_set) (um : Int) (hf : fd_set) (hm : Int) :
    hm ≤ (update_FDSET_with_all_connected_sockets t uf um hf hm).host_max_fd ∧
    (∀ i, (t i).host.fd ≤ (update_FDSET_with_all_connected_sockets t uf um hf hm).host_max_fd) ∧
    ((update_FDSET_with_all_connected_sockets t uf um hf hm).host_max_fd = hm ∨
      ∃ i, (update_FDSET_with_all_connected_sockets t uf um hf hm).host_max_fd =
        (t i).host.fd) := by
  unfold update_FDSET_with_all_connected_sockets
  obtain ⟨h1, h2, h3⟩ := update_loop_host_max t indices
    { user_fds := uf, user_max_fd := um, host_fds := hf, host_max_fd := hm }
  refine ⟨h1, fun i => h2 i (mem_indices i), ?_⟩
  rcases h3 with h3 | ⟨i, _, h3⟩
  · exact Or.inl h3
  · exact Or.inr ⟨i, h3⟩

theorem main_fdsets_user_fds (server_fd : Int) (t : Table) (x : Int) :
    x ∈ (main_fdsets server_fd t).user_fds ↔
      x = server_fd ∨ ∃ i, (t i).user.fd = x ∧ 0 < x := by
  unfold main_fdsets
  simp only [update_FDSET_user_fds, FD_SET, FD_ZERO, List.mem_singleton]

theorem main_fdsets_host_fds (server_fd : Int) (t : Table) (x : Int) :
    x ∈ (main_fdsets server_fd t).host_fds ↔ ∃ i, (t i).host.fd = x ∧ 0 < x := by
  unfold main_fdsets
  simp only [update_FDSET_host_fds, FD_ZERO, List.not_mem_nil, false_or]

/-! ## The two read loops -/

theorem client_phase_loop_eq (env : TickEnv) (t : Table) (uf : fd_set)
    (l : List (Fin MAX_CONNECTIONS)) :
    client_phase_loop env t uf l =
      relay_actions (fun i => FD_ISSET (t i).user.fd uf) Leg.user Leg.host
        (fun i => (env.read Leg.user i).1) l := by
  induction l with
  | nil => rfl
  | cons i rest ih => simp only [client_phase_loop, relay_actions, ih]

theorem host_phase_loop_eq (env : TickEnv) (t : Table) (hf : fd_set)
    (l : List (Fin MAX_CONNECTIONS)) :
    host_phase_loop env t hf l =
      relay_actions (fun i => FD_ISSET (t i).host.fd hf) Leg.host Leg.user
        (fun i => (env.read Leg.host i).1) l := by
  induction l with
  | nil => rfl
  | cons i rest ih => simp only [host_phase_loop, relay_actions, ih]

theorem mem_relay_actions (ready : Fin MAX_CONNECTIONS → Bool) (src dst : Leg)
    (body : Fin MAX_CONNECTIONS → Payload) (l : List (Fin MAX_CONNECTIONS)) (a : Action) :
    a ∈ relay_actions ready src dst body l ↔
      ∃ i ∈ l, ready i = true ∧ (a = Action.read src i ∨ a = Action.write dst i (body i)) := by
  induction l with
  | nil => simp [relay_actions]
  | cons j rest ih =>
    rw [relay_actions, List.mem_append, ih]
    constructor
    · rintro (h | ⟨i, hi, h⟩)
      · by_cases hr : ready j = true
        · rw [if_pos hr] at h
          simp only [List.mem_cons, List.mem_singleton, List.not_mem_nil, or_false] at h
          exact ⟨j, List.mem_cons_self _ _, hr, h⟩
        · rw [if_neg hr] at h
          exact absurd h (List.not_mem_nil _)
      · exact ⟨i, List.mem_cons_of_mem _ hi, h⟩
    · rintro ⟨i, hi, hr, h⟩
      rcases List.mem_cons.mp hi with rfl | hi
      · left
        rw [if_pos hr]
        simp only [List.mem_cons, List.mem_singleton, List.not_mem_nil, or_false]
        exact h
      · exact Or.inr ⟨i, hi, hr, h⟩

theorem count_read_relay_actions (ready : Fin MAX_CONNECTIONS → Bool) (src dst : Leg)
    (body : Fin MAX_CONNECTIONS → Payload) (l : List (Fin MAX_CONNECTIONS))
    (i : Fin MAX_CONNECTIONS) :
    (relay_actions ready src dst body l).count (Action.read src i) =
      if ready i = true then l.count i else 0 := by
  induction l with
  | nil => simp [relay_actions]
  | cons j rest ih =>
    rw [relay_actions, List.count_append, ih, List.count_cons]
    by_cases hji : j = i
    · subst hji
      by_cases hr : ready j = true
      · simp [hr]; omega
      · simp [hr]
    · by_cases hr : ready j = true
      · by_cases hri : ready i = true
        · simp [hr, hri, hji, List.count_cons]
        · simp [hr, hri, hji, List.count_cons]
      · simp [hr, hji]

theorem count_write_relay_actions (ready : Fin MAX_CONNECTIONS → Bool) (src dst : Leg)
    (body : Fin MAX_CONNECTIONS → Payload) (l : List (Fin MAX_CONNECTIONS))
    (i : Fin MAX_CONNECTIONS) (p : Payload) :
    (relay_actions ready src dst body l).count (Action.write dst i p) =
      if ready i = true ∧ p = body i then l.count i else 0 := by
  induction l with
  | nil => simp [relay_actions]
  | cons j rest ih =>
    rw [relay_actions, List.count_append, ih, List.count_cons]
    by_cases hji : j = i
    · subst hji
      by_cases hr : ready j = true
      · by_cases hp : p = body j
        · subst hp
          simp [hr]; omega
        · have hp1 : ¬ body j = p := fun h => hp h.symm
          simp [hr, hp, hp1, List.count_cons]
      · simp [hr]
    · by_cases hr : ready j = true
      · simp [hr, hji, List.count_cons]
      · simp [hr, hji]

/-! ## The four ways through one iteration -/

theorem tick_select_user_fails (server_fd : Int) (env : TickEnv) (t : Table)
    (h : env.select_user ((main_fdsets server_fd t).user_max_fd + 1)
      (main_fdsets server_fd t).user_fds = none) :
    tick server_fd env t = ([], Outcome.exited) := by
  simp only [tick, h]

theorem tick_accept (server_fd : Int) (env : TickEnv) (t : Table) (uf : fd_set)
    (h : env.select_user ((main_fdsets server_fd t).user_max_fd + 1)
      (main_fdsets server_fd t).user_fds = some uf)
    (hl : FD_ISSET server_fd uf = true) :
    tick server_fd env t = accept_step env t := by
  simp only [tick, h, hl, if_true]

theorem tick_select_host_fails (server_fd : Int) (env : TickEnv) (t : Table) (uf : fd_set)
    (h : env.select_user ((main_fdsets server_fd t).user_max_fd + 1)
      (main_fdsets server_fd t).user_fds = some uf)
    (hl : FD_ISSET server_fd uf = false)
    (hh : env.select_host ((main_fdsets server_fd t).host_max_fd + 1)
      (main_fdsets server_fd t).host_fds = none) :
    tick server_fd env t = (client_phase_loop env t uf indices, Outcome.exited) := by
  simp [tick, h, hl, hh]

theorem tick_relay (server_fd : Int) (env : TickEnv) (t : Table) (uf hf : fd_set)
    (h : env.select_user ((main_fdsets server_fd t).user_max_fd + 1)
      (main_fdsets server_fd t).user_fds = some uf)
    (hl : FD_ISSET server_fd uf = false)
    (hh : env.select_host ((main_fdsets server_fd t).host_max_fd + 1)
      (main_fdsets server_fd t).host_fds = some hf) :
    tick server_fd env t =
      (client_phase_loop env t uf indices ++ host_phase_loop env t hf indices,
        Outcome.next t) := by
  simp [tick, h, hl, hh]

theorem accept_step_actions (env : TickEnv) (t : Table) :
    (accept_step env t).1 =
      [Action.handshake_user (find_empty_position_in_ssl_connection_list t),
       Action.handshake_host (find_empty_position_in_ssl_connection_list t)] := by
  simp only [accept_step]
  split <;> rfl

/-- The calls of one iteration are a list of client-to-host calls followed by
a list of host-to-client calls, or the two handshake calls. -/
theorem tick_actions_shape (server_fd : Int) (env : TickEnv) (t : Table) :
    (∃ uf hf,
      env.select_user ((main_fdsets server_fd t).user_max_fd + 1)
        (main_fdsets server_fd t).user_fds = some uf ∧
      FD_ISSET server_fd uf = false ∧
      env.select_host ((main_fdsets server_fd t).host_max_fd + 1)
        (main_fdsets server_fd t).host_fds = some hf ∧
      (tick server_fd env t).1 =
        relay_actions (fun i => FD_ISSET (t i).user.fd uf) Leg.user Leg.host
          (fun i => (env.read Leg.user i).1) indices ++
        relay_actions (fun i => FD_ISSET (t i).host.fd hf) Leg.host Leg.user
          (fun i => (env.read Leg.host i).1) indices) ∨
    (∃ uf,
      env.select_user ((main_fdsets server_fd t).user_max_fd + 1)
        (main_fdsets server_fd t).user_fds = some uf ∧
      FD_ISSET server_fd uf = false ∧
      (tick server_fd env t).1 =
        relay_actions (fun i => FD_ISSET (t i).user.fd uf) Leg.user Leg.host
          (fun i => (env.read Leg.user i).1) indices ++ []) ∨
    (tick server_fd env t).1 = [] ++ [] ∨
    (tick server_fd env t).1 =
      [] ++ [Action.handshake_user (find_empty_position_in_ssl_connection_list t),
       Action.handshake_host (find_empty_position_in_ssl_connection_list t)] := by
  cases h : env.select_user ((main_fdsets server_fd t).user_max_fd + 1)
      (main_fdsets server_fd t).user_fds with
  | none =>
    right; right; left
    rw [tick_select_user_fails server_fd env t h]
    rfl
  | some uf =>
    cases hl : FD_ISSET server_fd uf with
    | true =>
      right; right; right
      rw [tick_accept server_fd env t uf h hl, accept_step_actions]
      rfl
    | false =>
      cases hh : env.select_host ((main_fdsets server_fd t).host_max_fd + 1)
          (main_fdsets server_fd t).host_fds with
      | none =>
        right; left
        refine ⟨uf, rfl, hl, ?_⟩
        rw [tick_select_host_fails server_fd env t uf h hl hh, List.append_nil,
          client_phase_loop_eq]
      | some hf =>
        left
        refine ⟨uf, hf, rfl, hl, rfl, ?_⟩
        rw [tick_relay server_fd env t uf hf h hl hh, client_phase_loop_eq,
          host_phase_loop_eq]

theorem relay_user_host_kind (ready : Fin MAX_CONNECTIONS → Bool)
    (body : Fin MAX_CONNECTIONS → Payload) (l : List (Fin MAX_CONNECTIONS)) :
    ∀ x ∈ relay_actions ready Leg.user Leg.host body l,
      x.client_to_host = true ∧ x.host_to_client = false ∧ x.handshake = false := by
  intro x hx
  obtain ⟨i, _, _, rfl | rfl⟩ := (mem_relay_actions _ _ _ _ _ _).mp hx <;> exact ⟨rfl, rfl, rfl⟩

theorem relay_host_user_kind (ready : Fin MAX_CONNECTIONS → Bool)
    (body : Fin MAX_CONNECTIONS → Payload) (l : List (Fin MAX_CONNECTIONS)) :
    ∀ x ∈ relay_actions ready Leg.host Leg.user body l,
      x.client_to_host = false ∧ x.host_to_client = true ∧ x.handshake = false := by
  intro x hx
  obtain ⟨i, _, _, rfl | rfl⟩ := (mem_relay_actions _ _ _ _ _ _).mp hx <;> exact ⟨rfl, rfl, rfl⟩

theorem append_ordered (l1 l2 : List Action)
    (h1 : ∀ x ∈ l1, x.host_to_client = false) (h2 : ∀ x ∈ l2, x.client_to_host = false)
    (a b : Nat) (x y : Action) (hx : (l1 ++ l2)[a]? = some x) (hy : (l1 ++ l2)[b]? = some y)
    (hxk : x.client_to_host = true) (hyk : y.host_to_client = true) : a < b := by
  by_contra hba
  have hba : b ≤ a := Nat.le_of_not_lt hba
  by_cases ha : a < l1.length
  · have hb : b < l1.length := lt_of_le_of_lt hba ha
    rw [List.getElem?_append_left hb] at hy
    have := h1 y (List.getElem?_mem hy)
    rw [hyk] at this
    exact Bool.noConfusion this
  · rw [List.getElem?_append_right (Nat.le_of_not_lt ha)] at hx
    have := h2 x (List.getElem?_mem hx)
    rw [hxk] at this
    exact Bool.noConfusion this

theorem tick_relay_actions (server_fd : Int) (env : TickEnv) (t : Table) (uf : fd_set)
    (h : env.select_user ((main_fdsets server_fd t).user_max_fd + 1)
      (main_fdsets server_fd t).user_fds = some uf)
    (hl : FD_ISSET server_fd uf = false) :
    (tick server_fd env t).1 =
      relay_actions (fun i => FD_ISSET (t i).user.fd uf) Leg.user Leg.host
        (fun i => (env.read Leg.user i).1) indices ++ host_part server_fd env t := by
  unfold host_part
  cases hh : env.select_host ((main_fdsets server_fd t).host_max_fd + 1)
      (main_fdsets server_fd t).host_fds with
  | none =>
    rw [tick_select_host_fails server_fd env t uf h hl hh, client_phase_loop_eq]
    simp
  | some hf =>
    rw [tick_relay server_fd env t uf hf h hl hh, client_phase_loop_eq, host_phase_loop_eq]

theorem host_part_kind (server_fd : Int) (env : TickEnv) (t : Table) :
    ∀ x ∈ host_part server_fd env t,
      x.client_to_host = false ∧ x.host_to_client = true ∧ x.handshake = false := by
  unfold host_part
  cases env.select_host ((main_fdsets server_fd t).host_max_fd + 1)
      (main_fdsets server_fd t).host_fds with
  | none => intro x hx; exact absurd hx (List.not_mem_nil _)
  | some hf => exact relay_host_user_kind _ _ _

theorem count_client_to_host_eq_zero (l : List Action) (a : Action)
    (hl : ∀ x ∈ l, x.client_to_host = false) (ha : a.client_to_host = true) :
    l.count a = 0 := by
  apply List.count_eq_zero_of_not_mem
  intro hm
  have := hl a hm
  rw [ha] at this
  exact Bool.noConfusion this

theorem count_host_to_client_eq_zero (l : List Action) (a : Action)
    (hl : ∀ x ∈ l, x.host_to_client = false) (ha : a.host_to_client = true) :
    l.count a = 0 := by
  apply List.count_eq_zero_of_not_mem
  intro hm
  have := hl a hm
  rw [ha] at this
  exact Bool.noConfusion this

theorem count_indices (i : Fin MAX_CONNECTIONS) : indices.count i = 1 :=
  List.count_eq_one_of_mem nodup_indices (mem_indices i)

/-- In an iteration that reaches the first read loop, the calls on the client
leg of slot `i` as source and on its host leg as destination. -/
theorem tick_client_forward (server_fd : Int) (env : TickEnv) (t : Table) (uf : fd_set)
    (h : env.select_user ((main_fdsets server_fd t).user_max_fd + 1)
      (main_fdsets server_fd t).user_fds = some uf)
    (hl : FD_ISSET server_fd uf = false) (i : Fin MAX_CONNECTIONS) :
    (tick server_fd env t).1.count (Action.read Leg.user i) =
        (if FD_ISSET (t i).user.fd uf = true then 1 else 0) ∧
    ∀ p, (tick server_fd env t).1.count (Action.write Leg.host i p) =
        (if FD_ISSET (t i).user.fd uf = true ∧ p = (env.read Leg.user i).1 then 1 else 0) := by
  rw [tick_relay_actions server_fd env t uf h hl]
  constructor
  · rw [List.count_append, count_read_relay_actions, count_indices,
      count_client_to_host_eq_zero (host_part server_fd env t) (Action.read Leg.user i)
        (fun x hx => (host_part_kind server_fd env t x hx).1) rfl]
    simp
  · intro p
    rw [List.count_append, count_write_relay_actions, count_indices,
      count_client_to_host_eq_zero (host_part server_fd env t) (Action.write Leg.host i p)
        (fun x hx => (host_part_kind server_fd env t x hx).1) rfl]
    simp

/-- In an iteration that reaches the second read loop, the calls on the host
leg of slot `i` as source and on its client leg as destination. -/
theorem tick_host_forward (server_fd : Int) (env : TickEnv) (t : Table) (uf hf : fd_set)
    (h : env.select_user ((main_fdsets server_fd t).user_max_fd + 1)
      (main_fdsets server_fd t).user_fds = some uf)
    (hl : FD_ISSET server_fd uf = false)
    (hh : env.select_host ((main_fdsets server_fd t).host_max_fd + 1)
      (main_fdsets server_fd t).host_fds = some hf) (i : Fin MAX_CONNECTIONS) :
    (tick server_fd env t).1.count (Action.read Leg.host i) =
        (if FD_ISSET (t i).host.fd hf = true then 1 else 0) ∧
    ∀ p, (tick server_fd env t).1.count (Action.write Leg.user i p) =
        (if FD_ISSET (t i).host.fd hf = true ∧ p = (env.read Leg.host i).1 then 1 else 0) := by
  rw [tick_relay server_fd env t uf hf h hl hh, client_phase_loop_eq, host_phase_loop_eq]
  constructor
  · rw [List.count_append, count_read_relay_actions, count_indices,
      count_host_to_client_eq_zero _ (Action.read Leg.host i)
        (fun x hx => (relay_user_host_kind _ _ _ x hx).2.1) rfl]
    simp
  · intro p
    rw [List.count_append, count_write_relay_actions, count_indices,
      count_host_to_client_eq_zero _ (Action.write Leg.user i p)
        (fun x hx => (relay_user_host_kind _ _ _ x hx).2.1) rfl]
    simp

/-- A write on the client leg of a slot is made only by the second read loop. -/
theorem tick_write_user_reaches_host_phase (server_fd : Int) (env : TickEnv) (t : Table)
    (uf : fd_set)
    (h : env.select_user ((main_fdsets server_fd t).user_max_fd + 1)
      (main_fdsets server_fd t).user_fds = some uf)
    (hl : FD_ISSET server_fd uf = false) (a : Action) (ha : a.host_to_client = true)
    (hm : a ∈ (tick server_fd env t).1) :
    ∃ hf, env.select_host ((main_fdsets server_fd t).host_max_fd + 1)
      (main_fdsets server_fd t).host_fds = some hf := by
  cases hh : env.select_host ((main_fdsets server_fd t).host_max_fd + 1)
      (main_fdsets server_fd t).host_fds with
  | some hf => exact ⟨hf, rfl⟩
  | none =>
    rw [tick_select_host_fails server_fd env t uf h hl hh, client_phase_loop_eq] at hm
    have := (relay_user_host_kind _ _ _ a hm).2.1
    rw [ha] at this
    exact Bool.noConfusion this

theorem sample_env_select_subset (ready_user ready_host : fd_set) (body : Payload)
    (eos : Bool) : select_subset (sample_env ready_user ready_host body eos) := by
  constructor
  · intro n s r h x hx
    simp only [sample_env, Option.some.injEq] at h
    subst h
    exact (List.mem_filter.mp hx).1
  · intro n s r h x hx
    simp only [sample_env, Option.some.injEq] at h
    subst h
    exact (List.mem_filter.mp hx).1

/-! ## The accept step and the slot invariant -/

theorem slot_index_coe (k : Fin MAX_CONNECTIONS) : slot_index (k.val : Int) = some k := by
  unfold slot_index
  have h : 0 ≤ (k.val : Int) ∧ (k.val : Int).toNat < MAX_CONNECTIONS :=
    ⟨Int.ofNat_nonneg _, by rw [Int.toNat_ofNat]; exact k.isLt⟩
  rw [dif_pos h]
  congr 1

theorem slot_index_neg_one : slot_index (-1) = none := by
  decide

theorem slot_index_find_empty (t : Table) (i : Fin MAX_CONNECTIONS)
    (h : slot_index (find_empty_position_in_ssl_connection_list t) = some i) :
    (t i).user.fd = 0 := by
  by_cases hex : ∃ j, (t j).user.fd = 0
  · obtain ⟨j, hj⟩ := hex
    obtain ⟨k, _, hk, hk0, _⟩ :=
      find_empty_loop_first t indices pairwise_indices ⟨j, mem_indices j, hj⟩
    unfold find_empty_position_in_ssl_connection_list at h
    rw [hk, slot_index_coe] at h
    injection h with h
    rw [← h]
    exact hk0
  · have hall : ∀ j ∈ indices, (t j).user.fd ≠ 0 := fun j _ hj => hex ⟨j, hj⟩
    unfold find_empty_position_in_ssl_connection_list at h
    rw [(find_empty_loop_eq_neg_one t indices).mpr hall, slot_index_neg_one] at h
    exact Option.noConfusion h

theorem accept_step_next (env : TickEnv) (t t1 : Table)
    (h : (accept_step env t).2 = Outcome.next t1) :
    ∃ i, (t i).user.fd = 0 ∧
      ∀ j, t1 j = if j = i then
        create_TLS_connection_with_host_with_changed_SNI env.handshake_host
          (create_TLS_connection_with_user env.handshake_user (t i))
        else t j := by
  cases hidx : slot_index (find_empty_position_in_ssl_connection_list t) with
  | none =>
    simp only [accept_step, hidx] at h
    exact Outcome.noConfusion h
  | some i =>
    simp only [accept_step, hidx] at h
    injection h with h
    refine ⟨i, slot_index_find_empty t i hidx, ?_⟩
    intro j
    rw [← h]
    by_cases hji : j = i
    · simp [Table.set, hji]
    · simp [Table.set, hji]

theorem tick_next (server_fd : Int) (env : TickEnv) (t t1 : Table)
    (h : (tick server_fd env t).2 = Outcome.next t1) :
    t1 = t ∨ (accept_step env t).2 = Outcome.next t1 := by
  cases hsel : env.select_user ((main_fdsets server_fd t).user_max_fd + 1)
      (main_fdsets server_fd t).user_fds with
  | none =>
    rw [tick_select_user_fails server_fd env t hsel] at h
    exact Outcome.noConfusion h
  | some uf =>
    cases hl : FD_ISSET server_fd uf with
    | true =>
      rw [tick_accept server_fd env t uf hsel hl] at h
      exact Or.inr h
    | false =>
      cases hh : env.select_host ((main_fdsets server_fd t).host_max_fd + 1)
          (main_fdsets server_fd t).host_fds with
      | none =>
        rw [tick_select_host_fails server_fd env t uf hsel hl hh] at h
        exact Outcome.noConfusion h
      | some hf =>
        rw [tick_relay server_fd env t uf hf hsel hl hh] at h
        injection h with h
        exact Or.inl h.symm

theorem release_fully_empty (s : ssl_connection) : fully_empty (release s) := by
  refine ⟨rfl, rfl, rfl, rfl, ?_, ?_⟩
  · intro b hb
    obtain ⟨_, _, h⟩ := List.mem_map.mp hb
    exact h.symm
  · intro b hb
    obtain ⟨_, _, h⟩ := List.mem_map.mp hb
    exact h.symm

theorem handshakes_keep_slot_state (env : TickEnv) (s : ssl_connection)
    (hv : handshakes_valid env) :
    fully_empty (create_TLS_connection_with_host_with_changed_SNI env.handshake_host
        (create_TLS_connection_with_user env.handshake_user s)) ∨
    fully_active (create_TLS_connection_with_host_with_changed_SNI env.handshake_host
        (create_TLS_connection_with_user env.handshake_user s)) := by
  obtain ⟨hvu, hvh⟩ := hv
  cases hh : env.handshake_host with
  | none =>
    left
    simp only [create_TLS_connection_with_host_with_changed_SNI]
    exact release_fully_empty _
  | some b =>
    cases hu : env.handshake_user with
    | none =>
      left
      have h : create_TLS_connection_with_host_with_changed_SNI (some b)
          (create_TLS_connection_with_user none s) = release (release s) := rfl
      rw [h]
      exact release_fully_empty _
    | some a =>
      right
      rw [hu] at hvu
      rw [hh] at hvh
      simp only [populates_user, populates_host, bne_iff_ne, ne_eq] at hvu hvh
      simp [fully_active, create_TLS_connection_with_user,
        create_TLS_connection_with_host_with_changed_SNI, hvu, hvh]

theorem tick_keeps_slot_states (server_fd : Int) (env : TickEnv) (t t1 : Table)
    (hv : handshakes_valid env)
    (ht : ∀ i, fully_empty (t i) ∨ fully_active (t i))
    (h : (tick server_fd env t).2 = Outcome.next t1) :
    ∀ i, fully_empty (t1 i) ∨ fully_active (t1 i) := by
  rcases tick_next server_fd env t t1 h with rfl | hacc
  · exact ht
  · obtain ⟨k, _, hset⟩ := accept_step_next env t t1 hacc
    intro i
    rw [hset i]
    by_cases hik : i = k
    · rw [if_pos hik]
      exact handshakes_keep_slot_state env (t k) hv
    · rw [if_neg hik]
      exact ht i

theorem run_keeps_slot_states (server_fd : Int) (envs : List TickEnv) :
    ∀ (t t1 : Table),
      (∀ env ∈ envs, handshakes_valid env) →
      (∀ i, fully_empty (t i) ∨ fully_active (t i)) →
      run server_fd envs t = Outcome.next t1 →
      ∀ i, fully_empty (t1 i) ∨ fully_active (t1 i) := by
  induction envs with
  | nil =>
    intro t t1 _ ht h
    simp only [run] at h
    injection h with h
    rw [← h]
    exact ht
  | cons env rest ih =>
    intro t t1 henv ht h
    rw [run] at h
    cases hstep : (tick server_fd env t).2 with
    | next t2 =>
      rw [hstep] at h
      have h2 := tick_keeps_slot_states server_fd env t t2
        (henv env (List.mem_cons_self _ _)) ht hstep
      exact ih t2 t1 (fun e he => henv e (List.mem_cons_of_mem _ he)) h2 h
    | exited =>
      rw [hstep] at h
      exact Outcome.noConfusion h
    | undefined =>
      rw [hstep] at h
      exact Outcome.noConfusion h

/-- With every slot occupied, an iteration whose first `select` reports the
listener calls both handshake routines with index `-1`. -/
theorem tick_full_table (server_fd : Int) (env : TickEnv) (t : Table) (uf : fd_set)
    (hfull : ∀ i, (t i).user.fd ≠ 0)
    (h : env.select_user ((main_fdsets server_fd t).user_max_fd + 1)
      (main_fdsets server_fd t).user_fds = some uf)
    (hl : FD_ISSET server_fd uf = true) :
    tick server_fd env t =
      ([Action.handshake_user (-1), Action.handshake_host (-1)], Outcome.undefined) := by
  have hfind : find_empty_position_in_ssl_connection_list t = -1 :=
    (find_empty_loop_eq_neg_one t indices).mpr (fun i _ => hfull i)
  rw [tick_accept server_fd env t uf h hl]
  simp only [accept_step, hfind, slot_index_neg_one]

theorem empty_slot_fully_empty (D P : Nat) : fully_empty (empty_slot D P) := by
  refine ⟨rfl, rfl, rfl, rfl, ?_, ?_⟩
  · intro b hb
    exact List.eq_of_mem_replicate hb
  · intro b hb
    exact List.eq_of_mem_replicate hb

/-! ## Claims -/

/-- C2: `find_empty_position_in_ssl_connection_list` returns the smallest index
whose slot has `user.fd == 0` when there is such a slot, and returns `-1`
exactly when every slot has `user.fd != 0`. The function is a pure function of
the table: it has no table to hand back, so the table is as it was. -/
theorem find_empty_position_smallest_or_none (ssl_connections : Table) :
    ((∃ i, (ssl_connections i).user.fd = 0) →
      ∃ k : Fin MAX_CONNECTIONS,
        find_empty_position_in_ssl_connection_list ssl_connections = (k.val : Int) ∧
        (ssl_connections k).user.fd = 0 ∧
        ∀ j, j < k → (ssl_connections j).user.fd ≠ 0) ∧
    (find_empty_position_in_ssl_connection_list ssl_connections = -1 ↔
      ∀ i, (ssl_connections i).user.fd ≠ 0) := by
  constructor
  · rintro ⟨i, hi⟩
    obtain ⟨k, _, hk, hk0, hmin⟩ :=
      find_empty_loop_first ssl_connections indices pairwise_indices ⟨i, mem_indices i, hi⟩
    exact ⟨k, hk, hk0, fun j hj => hmin j (mem_indices j) hj⟩
  · unfold find_empty_position_in_ssl_connection_list
    rw [find_empty_loop_eq_neg_one]
    exact ⟨fun h i => h i (mem_indices i), fun h i _ => h i⟩

/-- C5: for a slot whose hostname and port buffers have `DOMAIN_MAX_SIZE` and
`PORT_MAX_SIZE` bytes, `clean_data_in_SSL_connection` yields the empty slot
(descriptors `0`, sessions absent, both buffers all zero) whatever the slot
held; cleaning twice is cleaning once; and after the start-up loop every one
of the `MAX_CONNECTIONS` slots is the empty slot. -/
theorem clean_data_yields_empty_slot (DOMAIN_MAX_SIZE PORT_MAX_SIZE : Nat)
    (s : ssl_connection) (stack : Table)
    (hs : sized DOMAIN_MAX_SIZE PORT_MAX_SIZE s)
    (hstack : ∀ i, sized DOMAIN_MAX_SIZE PORT_MAX_SIZE (stack i)) :
    clean_data_in_SSL_connection DOMAIN_MAX_SIZE PORT_MAX_SIZE s =
        empty_slot DOMAIN_MAX_SIZE PORT_MAX_SIZE ∧
    (empty_slot DOMAIN_MAX_SIZE PORT_MAX_SIZE).user.fd = 0 ∧
    (empty_slot DOMAIN_MAX_SIZE PORT_MAX_SIZE).host.fd = 0 ∧
    (empty_slot DOMAIN_MAX_SIZE PORT_MAX_SIZE).user.connection = none ∧
    (empty_slot DOMAIN_MAX_SIZE PORT_MAX_SIZE).host.connection = none ∧
    (empty_slot DOMAIN_MAX_SIZE PORT_MAX_SIZE).hostname.length = DOMAIN_MAX_SIZE ∧
    (empty_slot DOMAIN_MAX_SIZE PORT_MAX_SIZE).port.length = PORT_MAX_SIZE ∧
    (∀ b ∈ (empty_slot DOMAIN_MAX_SIZE PORT_MAX_SIZE).hostname, b = 0) ∧
    (∀ b ∈ (empty_slot DOMAIN_MAX_SIZE PORT_MAX_SIZE).port, b = 0) ∧
    clean_data_in_SSL_connection DOMAIN_MAX_SIZE PORT_MAX_SIZE
        (clean_data_in_SSL_connection DOMAIN_MAX_SIZE PORT_MAX_SIZE s) =
      clean_data_in_SSL_connection DOMAIN_MAX_SIZE PORT_MAX_SIZE s ∧
    ∀ i, initial_table DOMAIN_MAX_SIZE PORT_MAX_SIZE stack i =
      empty_slot DOMAIN_MAX_SIZE PORT_MAX_SIZE := by
  refine ⟨clean_of_sized _ _ s hs, rfl, rfl, rfl, rfl, ?_, ?_, ?_, ?_, clean_clean _ _ s, ?_⟩
  · simp [empty_slot]
  · simp [empty_slot]
  · intro b hb
    exact List.eq_of_mem_replicate hb
  · intro b hb
    exact List.eq_of_mem_replicate hb
  · intro i
    rw [initial_table_apply]
    exact clean_of_sized _ _ _ (hstack i)

/-- Witness for C5: a slot and a stack whose buffers hold 4 and 2 bytes. -/
theorem clean_data_yields_empty_slot_witness :
    clean_data_in_SSL_connection 4 2 (sample_active 4 5) = empty_slot 4 2 ∧
    initial_table 4 2 full_table 19 = empty_slot 4 2 :=
  have h := clean_data_yields_empty_slot 4 2 (sample_active 4 5) full_table
    ⟨rfl, rfl⟩ (fun _ => ⟨rfl, rfl⟩)
  ⟨h.1, h.2.2.2.2.2.2.2.2.2.2 19⟩

/-- C8: after `update_FDSET_with_all_connected_sockets` the client set holds
what it held plus exactly the `user.fd` of the slots with `user.fd > 0`, the
host set what it held plus exactly the `host.fd` of the slots with
`host.fd > 0`, and each maximum is the maximum of its initial value and the
corresponding descriptor of every slot (an upper bound of all of them that is
one of them). As `main` calls it, the client set is the listener plus the
positive client descriptors, the host set is the positive host descriptors,
and every member of a set is at most the corresponding maximum. -/
theorem update_FDSET_builds_readiness_sets (ssl_connections : Table)
    (user_fds : fd_set) (user_max_fd : Int) (host_fds : fd_set) (host_max_fd : Int)
    (server_fd : Int) :
    (∀ x, x ∈ (update_FDSET_with_all_connected_sockets ssl_connections
          user_fds user_max_fd host_fds host_max_fd).user_fds ↔
        x ∈ user_fds ∨ ∃ i, (ssl_connections i).user.fd = x ∧ 0 < x) ∧
    (∀ x, x ∈ (update_FDSET_with_all_connected_sockets ssl_connections
          user_fds user_max_fd host_fds host_max_fd).host_fds ↔
        x ∈ host_fds ∨ ∃ i, (ssl_connections i).host.fd = x ∧ 0 < x) ∧
    (user_max_fd ≤ (update_FDSET_with_all_connected_sockets ssl_connections
          user_fds user_max_fd host_fds host_max_fd).user_max_fd ∧
      (∀ i, (ssl_connections i).user.fd ≤ (update_FDSET_with_all_connected_sockets
          ssl_connections user_fds user_max_fd host_fds host_max_fd).user_max_fd) ∧
      ((update_FDSET_with_all_connected_sockets ssl_connections
          user_fds user_max_fd host_fds host_max_fd).user_max_fd = user_max_fd ∨
        ∃ i, (update_FDSET_with_all_connected_sockets ssl_connections
          user_fds user_max_fd host_fds host_max_fd).user_max_fd =
            (ssl_connections i).user.fd)) ∧
    (host_max_fd ≤ (update_FDSET_with_all_connected_sockets ssl_connections
          user_fds user_max_fd host_fds host_max_fd).host_max_fd ∧
      (∀ i, (ssl_connections i).host.fd ≤ (update_FDSET_with_all_connected_sockets
          ssl_connections user_fds user_max_fd host_fds host_max_fd).host_max_fd) ∧
      ((update_FDSET_with_all_connected_sockets ssl_connections
          user_fds user_max_fd host_fds host_max_fd).host_max_fd = host_max_fd ∨
        ∃ i, (update_FDSET_with_all_connected_sockets ssl_connections
          user_fds user_max_fd host_fds host_max_fd).host_max_fd =
            (ssl_connections i).host.fd)) ∧
    (∀ x, x ∈ (main_fdsets server_fd ssl_connections).user_fds ↔
        x = server_fd ∨ ∃ i, (ssl_connections i).user.fd = x ∧ 0 < x) ∧
    (∀ x, x ∈ (main_fdsets server_fd ssl_connections).host_fds ↔
        ∃ i, (ssl_connections i).host.fd = x ∧ 0 < x) ∧
    (∀ x ∈ (main_fdsets server_fd ssl_connections).user_fds,
        x ≤ (main_fdsets server_fd ssl_connections).user_max_fd) ∧
    (∀ x ∈ (main_fdsets server_fd ssl_connections).host_fds,
        x ≤ (main_fdsets server_fd ssl_connections).host_max_fd) := by
  refine ⟨update_FDSET_user_fds _ _ _ _ _, update_FDSET_host_fds _ _ _ _ _,
    update_FDSET_user_max _ _ _ _ _, update_FDSET_host_max _ _ _ _ _,
    main_fdsets_user_fds _ _, main_fdsets_host_fds _ _, ?_, ?_⟩
  · intro x hx
    rcases (main_fdsets_user_fds server_fd ssl_connections x).mp hx with rfl | ⟨i, rfl, _⟩
    · exact (update_FDSET_user_max ssl_connections (FD_SET x FD_ZERO) x FD_ZERO 0).1
    · exact (update_FDSET_user_max ssl_connections (FD_SET server_fd FD_ZERO) server_fd
        FD_ZERO 0).2.1 i
  · intro x hx
    obtain ⟨i, rfl, _⟩ := (main_fdsets_host_fds server_fd ssl_connections x).mp hx
    exact (update_FDSET_host_max ssl_connections (FD_SET server_fd FD_ZERO) server_fd
      FD_ZERO 0).2.1 i

/-- C7: in an iteration whose first `select` does not report the listener,
every slot whose client descriptor is ready is read once on its client leg and
written once on its host leg, with exactly the body that read returned; every
write on a host leg of slot `i` carries the body read on the client leg of the
same slot `i`; and symmetrically for the second read loop, from the host leg
of slot `i` to the client leg of slot `i`. A slot that is not ready is neither
read nor written. -/
theorem relay_fidelity (server_fd : Int) (env : TickEnv) (ssl_connections : Table)
    (user_fds : fd_set)
    (hselect : env.select_user ((main_fdsets server_fd ssl_connections).user_max_fd + 1)
      (main_fdsets server_fd ssl_connections).user_fds = some user_fds)
    (hlistener : FD_ISSET server_fd user_fds = false) :
    (∀ i, FD_ISSET (ssl_connections i).user.fd user_fds = true →
      (tick server_fd env ssl_connections).1.count (Action.read Leg.user i) = 1 ∧
      (tick server_fd env ssl_connections).1.count
        (Action.write Leg.host i (env.read Leg.user i).1) = 1) ∧
    (∀ i body, Action.write Leg.host i body ∈ (tick server_fd env ssl_connections).1 →
      FD_ISSET (ssl_connections i).user.fd user_fds = true ∧
      body = (env.read Leg.user i).1) ∧
    (∀ i, Action.read Leg.user i ∈ (tick server_fd env ssl_connections).1 →
      FD_ISSET (ssl_connections i).user.fd user_fds = true) ∧
    (∀ host_fds,
      env.select_host ((main_fdsets server_fd ssl_connections).host_max_fd + 1)
        (main_fdsets server_fd ssl_connections).host_fds = some host_fds →
      (∀ i, FD_ISSET (ssl_connections i).host.fd host_fds = true →
        (tick server_fd env ssl_connections).1.count (Action.read Leg.host i) = 1 ∧
        (tick server_fd env ssl_connections).1.count
          (Action.write Leg.user i (env.read Leg.host i).1) = 1) ∧
      (∀ i body, Action.write Leg.user i body ∈ (tick server_fd env ssl_connections).1 →
        FD_ISSET (ssl_connections i).host.fd host_fds = true ∧
        body = (env.read Leg.host i).1) ∧
      (∀ i, Action.read Leg.host i ∈ (tick server_fd env ssl_connections).1 →
        FD_ISSET (ssl_connections i).host.fd host_fds = true)) ∧
    (∀ i body, Action.write Leg.user i body ∈ (tick server_fd env ssl_connections).1 →
      ∃ host_fds,
        env.select_host ((main_fdsets server_fd ssl_connections).host_max_fd + 1)
          (main_fdsets server_fd ssl_connections).host_fds = some host_fds) := by
  refine ⟨?_, ?_, ?_, ?_, ?_⟩
  · intro i hi
    obtain ⟨h1, h2⟩ := tick_client_forward server_fd env ssl_connections user_fds
      hselect hlistener i
    refine ⟨?_, ?_⟩
    · rw [h1, if_pos hi]
    · rw [h2, if_pos ⟨hi, rfl⟩]
  · intro i body hm
    have h2 := (tick_client_forward server_fd env ssl_connections user_fds
      hselect hlistener i).2 body
    have hpos := List.count_pos_iff.mpr hm
    by_cases hc : FD_ISSET (ssl_connections i).user.fd user_fds = true ∧
        body = (env.read Leg.user i).1
    · exact hc
    · rw [h2, if_neg hc] at hpos
      exact absurd hpos (lt_irrefl 0)
  · intro i hm
    have h1 := (tick_client_forward server_fd env ssl_connections user_fds
      hselect hlistener i).1
    have hpos := List.count_pos_iff.mpr hm
    by_cases hc : FD_ISSET (ssl_connections i).user.fd user_fds = true
    · exact hc
    · rw [h1, if_neg hc] at hpos
      exact absurd hpos (lt_irrefl 0)
  · intro host_fds hh
    refine ⟨?_, ?_, ?_⟩
    · intro i hi
      obtain ⟨h1, h2⟩ := tick_host_forward server_fd env ssl_connections user_fds host_fds
        hselect hlistener hh i
      refine ⟨?_, ?_⟩
      · rw [h1, if_pos hi]
      · rw [h2, if_pos ⟨hi, rfl⟩]
    · intro i body hm
      have h2 := (tick_host_forward server_fd env ssl_connections user_fds host_fds
        hselect hlistener hh i).2 body
      have hpos := List.count_pos_iff.mpr hm
      by_cases hc : FD_ISSET (ssl_connections i).host.fd host_fds = true ∧
          body = (env.read Leg.host i).1
      · exact hc
      · rw [h2, if_neg hc] at hpos
        exact absurd hpos (lt_irrefl 0)
    · intro i hm
      have h1 := (tick_host_forward server_fd env ssl_connections user_fds host_fds
        hselect hlistener hh i).1
      have hpos := List.count_pos_iff.mpr hm
      by_cases hc : FD_ISSET (ssl_connections i).host.fd host_fds = true
      · exact hc
      · rw [h1, if_neg hc] at hpos
        exact absurd hpos (lt_irrefl 0)
  · intro i body hm
    exact tick_write_user_reaches_host_phase server_fd env ssl_connections user_fds
      hselect hlistener (Action.write Leg.user i body) rfl hm

/-- Witness for C7: listener 3 not ready, slot 0 ready on both legs; the body
`[1, 2]` read on the client leg of slot 0 is written once on its host leg. -/
theorem relay_fidelity_witness :
    (tick 3 (sample_env [4] [5] [1, 2] false) one_active_table).1.count
        (Action.read Leg.user 0) = 1 ∧
    (tick 3 (sample_env [4] [5] [1, 2] false) one_active_table).1.count
        (Action.write Leg.host 0 [1, 2]) = 1 :=
  (relay_fidelity 3 (sample_env [4] [5] [1, 2] false) one_active_table [4]
    (by decide) (by decide)).1 0 (by decide)

/-- C9: in the calls of one iteration, every call of a client-to-host forward
comes before every call of a host-to-client forward; and when the first
`select` reports the listener, the calls of the iteration are the two
handshake calls of the accept step, with no read and no write on any slot. -/
theorem two_phase_ordering (server_fd : Int) (env : TickEnv) (ssl_connections : Table) :
    (∀ (a b : Nat) (x y : Action),
      (tick server_fd env ssl_connections).1[a]? = some x →
      (tick server_fd env ssl_connections).1[b]? = some y →
      x.client_to_host = true → y.host_to_client = true → a < b) ∧
    (∀ user_fds,
      env.select_user ((main_fdsets server_fd ssl_connections).user_max_fd + 1)
        (main_fdsets server_fd ssl_connections).user_fds = some user_fds →
      FD_ISSET server_fd user_fds = true →
      (tick server_fd env ssl_connections).1 =
        [Action.handshake_user (find_empty_position_in_ssl_connection_list ssl_connections),
         Action.handshake_host (find_empty_position_in_ssl_connection_list ssl_connections)] ∧
      ∀ x ∈ (tick server_fd env ssl_connections).1,
        x.handshake = true ∧ x.client_to_host = false ∧ x.host_to_client = false) := by
  constructor
  · intro a b x y hx hy hxk hyk
    rcases tick_actions_shape server_fd env ssl_connections with
      ⟨uf, hf, _, _, _, h⟩ | ⟨uf, _, _, h⟩ | h | h
    · rw [h] at hx hy
      exact append_ordered _ _ (fun z hz => (relay_user_host_kind _ _ _ z hz).2.1)
        (fun z hz => (relay_host_user_kind _ _ _ z hz).1) a b x y hx hy hxk hyk
    · rw [h] at hx hy
      exact append_ordered _ _ (fun z hz => (relay_user_host_kind _ _ _ z hz).2.1)
        (fun z hz => absurd hz (List.not_mem_nil _)) a b x y hx hy hxk hyk
    · rw [h] at hx hy
      exact append_ordered _ _ (fun z hz => absurd hz (List.not_mem_nil _))
        (fun z hz => absurd hz (List.not_mem_nil _)) a b x y hx hy hxk hyk
    · rw [h] at hx hy
      refine append_ordered _ _ (fun z hz => absurd hz (List.not_mem_nil _)) ?_
        a b x y hx hy hxk hyk
      intro z hz
      simp only [List.mem_cons, List.mem_singleton, List.not_mem_nil, or_false] at hz
      rcases hz with rfl | rfl <;> rfl
  · intro user_fds hsel hl
    rw [tick_accept server_fd env ssl_connections user_fds hsel hl, accept_step_actions]
    refine ⟨rfl, ?_⟩
    intro x hx
    simp only [List.mem_cons, List.mem_singleton, List.not_mem_nil, or_false] at hx
    rcases hx with rfl | rfl <;> exact ⟨rfl, rfl, rfl⟩

/-- C10: when each `select` leaves in its set only descriptors that were in
it, no iteration reads the client leg or writes the host leg of a slot whose
`user.fd` is `0`, and no iteration reads the host leg or writes the client leg
of a slot whose `host.fd` is `0`, whatever the table and the listener
descriptor are. Descriptor `0` is in the client set only as the listener, it
is never in the host set, and an iteration whose first `select` reports
descriptor `0` is the accept step. -/
theorem empty_slots_never_serviced (server_fd : Int) (env : TickEnv)
    (ssl_connections : Table) (hsubset : select_subset env) (i : Fin MAX_CONNECTIONS) :
    ((ssl_connections i).user.fd = 0 →
      Action.read Leg.user i ∉ (tick server_fd env ssl_connections).1 ∧
      ∀ body, Action.write Leg.host i body ∉ (tick server_fd env ssl_connections).1) ∧
    ((ssl_connections i).host.fd = 0 →
      Action.read Leg.host i ∉ (tick server_fd env ssl_connections).1 ∧
      ∀ body, Action.write Leg.user i body ∉ (tick server_fd env ssl_connections).1) ∧
    ((0 : Int) ∈ (main_fdsets server_fd ssl_connections).user_fds → server_fd = 0) ∧
    (0 : Int) ∉ (main_fdsets server_fd ssl_connections).host_fds ∧
    (∀ user_fds,
      env.select_user ((main_fdsets server_fd ssl_connections).user_max_fd + 1)
        (main_fdsets server_fd ssl_connections).user_fds = some user_fds →
      (0 : Int) ∈ user_fds →
      tick server_fd env ssl_connections = accept_step env ssl_connections) := by
  have zero_user : (0 : Int) ∈ (main_fdsets server_fd ssl_connections).user_fds →
      server_fd = 0 := by
    intro h0
    rcases (main_fdsets_user_fds server_fd ssl_connections 0).mp h0 with h2 | ⟨m, _, h2⟩
    · exact h2.symm
    · exact absurd h2 (lt_irrefl 0)
  have zero_host : (0 : Int) ∉ (main_fdsets server_fd ssl_connections).host_fds := by
    intro h0
    obtain ⟨m, _, h2⟩ := (main_fdsets_host_fds server_fd ssl_connections 0).mp h0
    exact absurd h2 (lt_irrefl 0)
  have key : ∀ a ∈ (tick server_fd env ssl_connections).1,
      (a.client_to_host = true → ∃ uf j,
        env.select_user ((main_fdsets server_fd ssl_connections).user_max_fd + 1)
          (main_fdsets server_fd ssl_connections).user_fds = some uf ∧
        FD_ISSET server_fd uf = false ∧ FD_ISSET (ssl_connections j).user.fd uf = true ∧
        (a = Action.read Leg.user j ∨ a = Action.write Leg.host j (env.read Leg.user j).1)) ∧
      (a.host_to_client = true → ∃ hf j,
        env.select_host ((main_fdsets server_fd ssl_connections).host_max_fd + 1)
          (main_fdsets server_fd ssl_connections).host_fds = some hf ∧
        FD_ISSET (ssl_connections j).host.fd hf = true ∧
        (a = Action.read Leg.host j ∨ a = Action.write Leg.user j (env.read Leg.host j).1)) := by
    intro a ha
    rcases tick_actions_shape server_fd env ssl_connections with
      ⟨uf, hf, hsel, hl, hh, h⟩ | ⟨uf, hsel, hl, h⟩ | h | h
    · rw [h, List.mem_append] at ha
      rcases ha with ha | ha
      · obtain ⟨j, _, hr, hj⟩ := (mem_relay_actions _ _ _ _ _ _).mp ha
        refine ⟨fun _ => ⟨uf, j, hsel, hl, hr, hj⟩, fun hk => ?_⟩
        have := (relay_user_host_kind _ _ _ a ha).2.1
        rw [hk] at this
        exact Bool.noConfusion this
      · obtain ⟨j, _, hr, hj⟩ := (mem_relay_actions _ _ _ _ _ _).mp ha
        refine ⟨fun hk => ?_, fun _ => ⟨hf, j, hh, hr, hj⟩⟩
        have := (relay_host_user_kind _ _ _ a ha).1
        rw [hk] at this
        exact Bool.noConfusion this
    · rw [h, List.append_nil] at ha
      obtain ⟨j, _, hr, hj⟩ := (mem_relay_actions _ _ _ _ _ _).mp ha
      refine ⟨fun _ => ⟨uf, j, hsel, hl, hr, hj⟩, fun hk => ?_⟩
      have := (relay_user_host_kind _ _ _ a ha).2.1
      rw [hk] at this
      exact Bool.noConfusion this
    · rw [h] at ha
      exact absurd ha (List.not_mem_nil _)
    · rw [h] at ha
      simp only [List.nil_append, List.mem_cons, List.mem_singleton, List.not_mem_nil,
        or_false] at ha
      rcases ha with rfl | rfl <;>
        exact ⟨fun hk => Bool.noConfusion hk, fun hk => Bool.noConfusion hk⟩
  have user_case : ∀ a, a ∈ (tick server_fd env ssl_connections).1 →
      (ssl_connections i).user.fd = 0 →
      (a = Action.read Leg.user i ∨ ∃ body, a = Action.write Leg.host i body) → False := by
    intro a ha hzero hform
    have hk : a.client_to_host = true := by
      rcases hform with rfl | ⟨body, rfl⟩ <;> rfl
    obtain ⟨uf, j, hsel, hl, hr, hj⟩ := (key a ha).1 hk
    have hji : j = i := by
      rcases hform with rfl | ⟨body, rfl⟩
      · rcases hj with hj | hj
        · injection hj with _ h2; exact h2.symm
        · exact Action.noConfusion hj
      · rcases hj with hj | hj
        · exact Action.noConfusion hj
        · injection hj with _ h2 _; exact h2.symm
    subst hji
    rw [hzero] at hr
    have h0 : (0 : Int) ∈ uf := of_decide_eq_true hr
    have h1 := hsubset.1 _ _ _ hsel 0 h0
    rcases (main_fdsets_user_fds server_fd ssl_connections 0).mp h1 with h2 | ⟨m, _, h2⟩
    · rw [← h2, hr] at hl
      exact Bool.noConfusion hl
    · exact absurd h2 (lt_irrefl 0)
  have host_case : ∀ a, a ∈ (tick server_fd env ssl_connections).1 →
      (ssl_connections i).host.fd = 0 →
      (a = Action.read Leg.host i ∨ ∃ body, a = Action.write Leg.user i body) → False := by
    intro a ha hzero hform
    have hk : a.host_to_client = true := by
      rcases hform with rfl | ⟨body, rfl⟩ <;> rfl
    obtain ⟨hf, j, hh, hr, hj⟩ := (key a ha).2 hk
    have hji : j = i := by
      rcases hform with rfl | ⟨body, rfl⟩
      · rcases hj with hj | hj
        · injection hj with _ h2; exact h2.symm
        · exact Action.noConfusion hj
      · rcases hj with hj | hj
        · exact Action.noConfusion hj
        · injection hj with _ h2 _; exact h2.symm
    subst hji
    rw [hzero] at hr
    have h0 : (0 : Int) ∈ hf := of_decide_eq_true hr
    have h1 := hsubset.2 _ _ _ hh 0 h0
    obtain ⟨m, _, h2⟩ := (main_fdsets_host_fds server_fd ssl_connections 0).mp h1
    exact absurd h2 (lt_irrefl 0)
  refine ⟨?_, ?_, zero_user, zero_host, ?_⟩
  · intro hzero
    exact ⟨fun ha => user_case _ ha hzero (Or.inl rfl),
      fun body ha => user_case _ ha hzero (Or.inr ⟨body, rfl⟩)⟩
  · intro hzero
    exact ⟨fun ha => host_case _ ha hzero (Or.inl rfl),
      fun body ha => host_case _ ha hzero (Or.inr ⟨body, rfl⟩)⟩
  · intro user_fds hsel h0
    have hs := zero_user (hsubset.1 _ _ _ hsel 0 h0)
    refine tick_accept server_fd env ssl_connections user_fds hsel ?_
    rw [hs]
    exact decide_eq_true h0

/-- Witness for C10: the listener is descriptor 0 and is not ready; slot 1 is
empty and is not read. -/
theorem empty_slots_never_serviced_witness :
    (one_active_table 1).user.fd = 0 ∧
    Action.read Leg.user 1 ∉ (tick 0 (sample_env [4] [5] [1, 2] false) one_active_table).1 ∧
    Action.read Leg.host 1 ∉ (tick 0 (sample_env [4] [5] [1, 2] false) one_active_table).1 :=
  ⟨rfl,
    ((empty_slots_never_serviced 0 (sample_env [4] [5] [1, 2] false) one_active_table
      (sample_env_select_subset _ _ _ _) 1).1 rfl).1,
    ((empty_slots_never_serviced 0 (sample_env [4] [5] [1, 2] false) one_active_table
      (sample_env_select_subset _ _ _ _) 1).2.1 rfl).1⟩

/-- C1, the code at a full table: with all twenty slots occupied and the
listener (descriptor 3) reported ready, `find_empty_position_in_ssl_connection_list`
returns `-1` and the iteration calls both handshake routines on
`&ssl_connections[-1]`, an element outside the array. -/
theorem full_table_accept_uses_index_minus_one :
    (∀ i, (full_table i).user.fd ≠ 0) ∧
    find_empty_position_in_ssl_connection_list full_table = -1 ∧
    (tick 3 (sample_env [3] [] [] false) full_table).1 =
      [Action.handshake_user (-1), Action.handshake_host (-1)] ∧
    (tick 3 (sample_env [3] [] [] false) full_table).2 = Outcome.undefined := by
  decide

/-- C4, the code at an end of stream: slot 0 is active and ready on both legs
and both reads set `end_connection`; the iteration still hands on the table
with slot 0 active, so `find_empty_position_in_ssl_connection_list` returns 1,
not 0, afterwards. -/
theorem end_of_stream_leaves_slot_active :
    (sample_env [4] [5] [1, 2] true).read Leg.user 0 = ([1, 2], true) ∧
    (sample_env [4] [5] [1, 2] true).read Leg.host 0 = ([1, 2], true) ∧
    (tick 3 (sample_env [4] [5] [1, 2] true) one_active_table).1 =
      [Action.read Leg.user 0, Action.write Leg.host 0 [1, 2],
       Action.read Leg.host 0, Action.write Leg.user 0 [1, 2]] ∧
    (tick 3 (sample_env [4] [5] [1, 2] true) one_active_table).2.slot 0 =
      some (sample_active 4 5) ∧
    ¬ fully_empty (sample_active 4 5) ∧
    (tick 3 (sample_env [4] [5] [1, 2] true) one_active_table).2 =
      Outcome.next one_active_table ∧
    find_empty_position_in_ssl_connection_list one_active_table = 1 := by
  decide

/-- C6, as amended: in the first read loop, for every slot whose client
descriptor is ready, the body returned by the read on the client leg is
forwarded to the host leg of that slot, also when that read signals
end-of-stream. -/
theorem client_read_forwarded_regardless_of_end (server_fd : Int) (env : TickEnv)
    (ssl_connections : Table) (user_fds : fd_set)
    (hselect : env.select_user ((main_fdsets server_fd ssl_connections).user_max_fd + 1)
      (main_fdsets server_fd ssl_connections).user_fds = some user_fds)
    (hlistener : FD_ISSET server_fd user_fds = false)
    (i : Fin MAX_CONNECTIONS)
    (hready : FD_ISSET (ssl_connections i).user.fd user_fds = true)
    (body : Payload) (end_connection : Bool)
    (hread : env.read Leg.user i = (body, end_connection)) :
    Action.write Leg.host i body ∈ (tick server_fd env ssl_connections).1 ∧
    (tick server_fd env ssl_connections).1.count (Action.write Leg.host i body) = 1 := by
  have h2 := (tick_client_forward server_fd env ssl_connections user_fds
    hselect hlistener i).2 body
  have hb : body = (env.read Leg.user i).1 := by rw [hread]
  rw [if_pos ⟨hready, hb⟩] at h2
  refine ⟨?_, h2⟩
  apply List.count_pos_iff.mp
  rw [h2]
  exact Nat.one_pos

/-- Witness for the amended C6: the read on the client leg of slot 0 returns
`[9]` with `end_connection` set, and `[9]` is written on its host leg. -/
theorem client_read_forwarded_regardless_of_end_witness :
    Action.write Leg.host 0 [9] ∈ (tick 3 (sample_env [4] [] [9] true) one_active_table).1 ∧
    (tick 3 (sample_env [4] [] [9] true) one_active_table).1.count
      (Action.write Leg.host 0 [9]) = 1 :=
  client_read_forwarded_regardless_of_end 3 (sample_env [4] [] [9] true) one_active_table [4]
    (by decide) (by decide) 0 (by decide) [9] true rfl

/-- C6, counterexample: the client descriptor of slot 0 is ready, the read on
its client leg returns `[9]` and sets `end_connection`, and the iteration
writes `[9]` on the host leg of slot 0. -/
theorem client_end_of_stream_still_written :
    FD_ISSET (one_active_table 0).user.fd [4] = true ∧
    (sample_env [4] [] [9] true).read Leg.user 0 = ([9], true) ∧
    (tick 3 (sample_env [4] [] [9] true) one_active_table).1 =
      [Action.read Leg.user 0, Action.write Leg.host 0 [9]] ∧
    Action.write Leg.host 0 [9] ∈ (tick 3 (sample_env [4] [] [9] true) one_active_table).1 := by
  decide


end SNIProxy
